import Mathlib

/-!
Shallow embedding of the semantic-resolution core of an SVD-to-source
compiler (`src/util.rs`): identifier sanitization, register-array
expansion, derivation resolution for enumerated values and descriptions,
access-mode inference and bit-width mapping.

Machine integers (`u32`) are embedded as `Nat`; none of the verified
properties involves wrap-around arithmetic.  Rust `String`/`&str` values
are embedded as Lean `String`, with the handful of string primitives the
source uses (`replace`, `contains`, `split('.')`, `to_lowercase`)
re-implemented over `List Char` so that every definition is executable
and kernel-reducible.  The case conversions delegated by the source to
the external `inflections` crate are modelled on ASCII input (word split
at lower/digit-to-upper transitions and at non-alphanumeric separators).
-/

namespace Svd

/-! ## Data model (the `svd` crate types used by `util.rs`) -/

/-- `svd::Access` (the three variants the source inspects). -/
inductive Access where
  | readOnly
  | writeOnly
  | readWrite
deriving DecidableEq

/-- `svd::Usage`. -/
inductive Usage where
  | read
  | write
  | readWrite
deriving DecidableEq

/-- `svd::EnumeratedValues` (the fields used by `util.rs`). -/
structure EnumeratedValues where
  name : Option String
  usage : Option Usage
  derived_from : Option String
deriving DecidableEq

/-- `svd::Field` (the fields used by `util.rs`). -/
structure Field where
  name : String
  access : Option Access
  enumerated_values : List EnumeratedValues
deriving DecidableEq

/-- `svd::RegisterInfo` (the fields used by `util.rs`). -/
structure RegisterInfo where
  name : String
  address_offset : Nat
  description : Option String
  access : Option Access
  fields : Option (List Field)
  derived_from : Option String
deriving DecidableEq

/-- `svd::RegisterClusterArrayInfo` (the fields used by `util.rs`). -/
structure ArrayInfo where
  dim : Nat
  dim_index : Option (List String)
  dim_increment : Nat
deriving DecidableEq

/-- `svd::Register`: a tagged variant, `Single` or `Array`. -/
inductive Register where
  | single (info : RegisterInfo)
  | array (info : RegisterInfo) (array_info : ArrayInfo)
deriving DecidableEq

/-- The `Deref<Target = RegisterInfo>` impl of `svd::Register`: both
variants expose the inner `RegisterInfo`. -/
def Register.regInfo : Register → RegisterInfo
  | .single info => info
  | .array info _ => info

def Register.name (r : Register) : String := r.regInfo.name

def Register.description (r : Register) : Option String := r.regInfo.description

def Register.access (r : Register) : Option Access := r.regInfo.access

def Register.fields (r : Register) : Option (List Field) := r.regInfo.fields

def Register.derived_from (r : Register) : Option String := r.regInfo.derived_from

/-- `svd::Peripheral` (only its `name` is used by `util.rs`). -/
structure Peripheral where
  name : String
deriving DecidableEq

/-- `Base` of `util.rs`: provenance of a resolved `EnumeratedValues`. -/
structure Base where
  register : Option String
  field : String
deriving DecidableEq

/-! ## String primitives used by the source -/

/-- Rust `str::replace(pat, rep)` over the character list: replace every
non-overlapping occurrence of `pat`, scanning left to right.  (Only ever
called with a non-empty pattern in the source.) -/
def replaceFuel (pat rep : List Char) : Nat → List Char → List Char
  | 0, l => l
  | _ + 1, [] => []
  | fuel + 1, c :: cs =>
    if pat.isPrefixOf (c :: cs) then
      rep ++ replaceFuel pat rep fuel (List.drop (pat.length - 1) cs)
    else
      c :: replaceFuel pat rep fuel cs

def replaceL (pat rep : List Char) (l : List Char) : List Char :=
  replaceFuel pat rep l.length l

/-- Rust `str::replace` on `String`. -/
def strReplace (s pat rep : String) : String :=
  String.mk (replaceL pat.data rep.data s.data)

/-- Rust `str::contains(pat)` for a string pattern. -/
def hasSubstrL (pat : List Char) : List Char → Bool
  | [] => pat.isPrefixOf ([] : List Char)
  | c :: cs => pat.isPrefixOf (c :: cs) || hasSubstrL pat cs

/-- Rust `str::contains` on `String`. -/
def strContainsSub (s pat : String) : Bool := hasSubstrL pat.data s.data

/-- Rust `str::split('.')` (all pieces, in order; an input without a dot
yields the one-element list holding the input itself). -/
def splitDotAux : List Char → List Char → List String
  | acc, [] => [String.mk acc.reverse]
  | acc, c :: cs =>
    if c = '.' then String.mk acc.reverse :: splitDotAux [] cs
    else splitDotAux (c :: acc) cs

def splitDot (s : String) : List String := splitDotAux [] s.data

/-- Rust `String::to_lowercase`, modelled on ASCII (the reserved-word
comparison in the source only ever matches ASCII keywords). -/
def lowerStr (s : String) : String := String.mk (s.data.map Char.toLower)

/-! ## Identifier sanitizer (`ToSanitizedSnakeCase` / `ToSanitizedPascalCase`) -/

/-- `BLACKLIST_CHARS` of `util.rs`. -/
def BLACKLIST_CHARS : List Char := ['(', ')']

/-- `s.replace(BLACKLIST_CHARS, "")`: strip every blacklisted char. -/
def removeBlacklist (s : String) : String :=
  String.mk (s.data.filter (fun c => !BLACKLIST_CHARS.contains c))

/-- Word boundary of the external `inflections` crate's case splitter
(ASCII model): a new word starts at a lower-or-digit to upper transition,
or at the last upper of an upper run followed by a lower. -/
def wordBoundary (prev cur : Char) (next : Option Char) : Bool :=
  ((prev.isLower || prev.isDigit) && cur.isUpper) ||
  (prev.isUpper && cur.isUpper && (match next with
    | some n => n.isLower
    | none => false))

def splitWordsAux : List Char → List Char → List (List Char)
  | acc, [] => if acc.isEmpty then [] else [acc.reverse]
  | acc, c :: cs =>
    if !c.isAlphanum then
      (if acc.isEmpty then [] else [acc.reverse]) ++ splitWordsAux [] cs
    else
      match acc with
      | [] => splitWordsAux [c] cs
      | p :: _ =>
        if wordBoundary p c cs.head? then
          acc.reverse :: splitWordsAux [c] cs
        else
          splitWordsAux (c :: acc) cs

/-- Split a name into case words (model of the `inflections` crate). -/
def splitWords (s : List Char) : List (List Char) := splitWordsAux [] s

/-- Model of `inflections`' `to_snake_case`: lowercased words joined
with underscores. -/
def to_snake_case (s : String) : String :=
  String.mk (List.intercalate ['_'] ((splitWords s.data).map (fun w => w.map Char.toLower)))

def capitalizeWord : List Char → List Char
  | [] => []
  | c :: cs => Char.toUpper c :: cs.map Char.toLower

/-- Model of `inflections`' `to_pascal_case`: capitalized words
concatenated. -/
def to_pascal_case (s : String) : String :=
  String.mk ((splitWords s.data).map capitalizeWord).flatten

/-- The reserved-word table of `ToSanitizedSnakeCase for str` (the
`keywords!` macro arms, in source order). -/
def keywords : List String :=
  ["abstract", "alignof", "as", "become", "box", "break", "const",
   "continue", "crate", "do", "else", "enum", "extern", "false", "final",
   "fn", "for", "if", "impl", "in", "let", "loop", "macro", "match",
   "mod", "move", "mut", "offsetof", "override", "priv", "proc", "pub",
   "pure", "ref", "return", "self", "sizeof", "static", "struct",
   "super", "trait", "true", "type", "typeof", "unsafe", "unsized",
   "use", "virtual", "where", "while", "yield"]

/-- `str::to_sanitized_snake_case`: strip blacklisted chars; if the first
remaining char is a decimal digit, prepend `_` to the snake-cased rest;
otherwise, if the lowercased string is a reserved word, return it with a
trailing underscore, else snake-case it.  (An empty string's sentinel
first char `'\0'` is not a digit, so it takes the keyword branch.) -/
def to_sanitized_snake_case (s : String) : String :=
  let s' := removeBlacklist s
  if (s'.data.head?.getD (Char.ofNat 0)).isDigit then
    "_" ++ to_snake_case s'
  else
    let lw := lowerStr s'
    if lw ∈ keywords then lw ++ "_" else to_snake_case s'

/-- `str::to_sanitized_pascal_case`: strip blacklisted chars; if the
first remaining char is a decimal digit, prepend `_` to the pascal-cased
rest; otherwise pascal-case directly. -/
def to_sanitized_pascal_case (s : String) : String :=
  let s' := removeBlacklist s
  if (s'.data.head?.getD (Char.ofNat 0)).isDigit then
    "_" ++ to_pascal_case s'
  else
    to_pascal_case s'

/-! ## Register array expansion (`expand`) -/

/-- `ExpandedRegister` of `util.rs`.  The Rust `ty` is
`Either<String, Rc<String>>`; the `Rc` sharing is a memory concern, so
it is embedded as the shared string value (`Sum.inr`). -/
structure ExpandedRegister where
  register : Register
  info : RegisterInfo
  name : String
  offset : Nat
  ty : Sum String String
deriving DecidableEq

/-- The index-label sequence of an `Array` register: the explicit
`dim_index` list if present, else `0..dim` rendered in decimal. -/
def arrayIndices (ai : ArrayInfo) : List String :=
  ai.dim_index.getD ((List.range ai.dim).map (fun i => toString i))

/-- The body of `expand`'s `for` loop for one register: a `Single`
register yields one instance; an `Array` register yields one instance
per index label, named by substituting the label into the placeholder
and addressed at `address_offset + i * dim_increment` for the 0-based
position `i`. -/
def expandOne (r : Register) : List ExpandedRegister :=
  match r with
  | .single info =>
    [{ register := .single info, info := info,
       name := to_sanitized_snake_case info.name,
       offset := info.address_offset,
       ty := .inl (to_sanitized_pascal_case info.name) }]
  | .array info array_info =>
    let has_brackets := strContainsSub info.name "[%s]"
    let tyBase := if has_brackets then strReplace info.name "[%s]" ""
                  else strReplace info.name "%s" ""
    let ty := to_sanitized_pascal_case tyBase
    (arrayIndices array_info).enum.map (fun p =>
      { register := .array info array_info, info := info,
        name := to_sanitized_snake_case
          (if has_brackets then strReplace info.name "[%s]" p.2
           else strReplace info.name "%s" p.2),
        offset := info.address_offset + p.1 * array_info.dim_increment,
        ty := .inr ty })

/-- The unsorted instance list (`out` just before the final sort). -/
def expandUnsorted (registers : List Register) : List ExpandedRegister :=
  (registers.map expandOne).flatten

/-- Stable insertion by address offset. -/
def insertByOffset (x : ExpandedRegister) : List ExpandedRegister → List ExpandedRegister
  | [] => [x]
  | y :: ys => if x.offset ≤ y.offset then x :: y :: ys else y :: insertByOffset x ys

/-- Model of Rust's stable `slice::sort_by_key(|x| x.offset)` as a
stable insertion sort (extensionally equal to any stable sort by the
same key). -/
def sortByOffset : List ExpandedRegister → List ExpandedRegister
  | [] => []
  | x :: xs => insertByOffset x (sortByOffset xs)

/-- `expand` of `util.rs`: expand every register, then sort the instance
list by address offset. -/
def expand (registers : List Register) : List ExpandedRegister :=
  sortByOffset (expandUnsorted registers)

/-! ## Access-mode inference (`access_of`) -/

/-- The field union inspected by `access_of`: the register's own fields
chained with the base register's fields. -/
def fieldsUnion (register : Register) (base : Option Register) : List Field :=
  (register.fields.getD []) ++ ((base.bind Register.fields).getD [])

/-- `access_of` of `util.rs`: explicit access of the register, else of
the base, else inferred from the union of both field lists. -/
def access_of (register : Register) (base : Option Register) : Access :=
  match register.access with
  | some a => a
  | none =>
    match base.bind Register.access with
    | some a => a
    | none =>
      let fields := fieldsUnion register base
      if fields.length = 0 then .readWrite
      else if fields.all (fun f => f.access == some .readOnly) then .readOnly
      else if fields.all (fun f => f.access == some .writeOnly) then .writeOnly
      else .readWrite

/-! ## Derivation resolver (`lookup` and helpers) -/

/-- Rust `Debug` rendering of an `Option<String>`. -/
def debugOptString : Option String → String
  | none => "None"
  | some s => "Some(\"" ++ s ++ "\")"

/-- Rust `Debug` rendering of a vector of `Option<String>`. -/
def debugOptStringList (l : List (Option String)) : String :=
  "[" ++ String.intercalate ", " (l.map debugOptString) ++ "]"

/-- `lookup_in_field`: find `base_evs` by name among the field's
enumerated values. -/
def lookup_in_field (base_evs : String) (base_register : Option String)
    (field : Field) : Except String (EnumeratedValues × Option Base) :=
  match field.enumerated_values.find? (fun evs => evs.name == some base_evs) with
  | some evs => .ok (evs, some { register := base_register, field := field.name })
  | none => .error ("No EnumeratedValues " ++ base_evs ++ " in field " ++ field.name)

/-- `lookup_in_fields`: two-component reference, restricted to the
current register's field list. -/
def lookup_in_fields (base_evs base_field : String) (fields : List Field)
    (register : Register) : Except String (EnumeratedValues × Option Base) :=
  match fields.find? (fun f => f.name == base_field) with
  | some f => lookup_in_field base_evs none f
  | none => .error ("Field " ++ base_field ++ " not found in register " ++ register.name)

/-- `lookup_in_peripheral`: three-component reference, resolved through
the peripheral's register list. -/
def lookup_in_peripheral (base_register base_field base_evs : String)
    (all_registers : List Register) (peripheral : Peripheral) :
    Except String (EnumeratedValues × Option Base) :=
  match all_registers.find? (fun r => r.name == base_register) with
  | some register =>
    match (register.fields.getD []).find? (fun f => f.name == base_field) with
    | some field => lookup_in_field base_evs (some base_register) field
    | none => .error ("No field " ++ base_field ++ " in register " ++ register.name)
  | none => .error ("No register " ++ base_register ++ " in peripheral " ++ peripheral.name)

/-- `lookup_in_register`: one-component reference.  Collect, per field
of the register, the first `EnumeratedValues` whose name matches; one
match resolves, none is a not-found error, and several are an ambiguity
error.  The source builds the ambiguity message from the FIRST component
of each collected pair — the `EnumeratedValues` (whose `name` is an
`Option<String>`, shown in `Debug` form) — not from the field name held
in the second component. -/
def lookup_in_register (base_evs : String) (register : Register) :
    Except String (EnumeratedValues × Option Base) :=
  let found := (register.fields.getD []).filterMap (fun f =>
    (f.enumerated_values.find? (fun evs => evs.name == some base_evs)).map
      (fun evs => (evs, f.name)))
  match found with
  | [] =>
    .error ("EnumeratedValues " ++ base_evs ++ " not found in register " ++ register.name)
  | (evs, field) :: rest =>
    if rest.isEmpty then
      .ok (evs, some { register := none, field := field })
    else
      .error ("Fields " ++ debugOptStringList (found.map (fun m => m.1.name)) ++
        " have an enumeratedValues named " ++ base_evs)

/-- One candidate of `lookup`'s mapping closure: no `derived_from`
resolves to itself; otherwise the dotted reference is split on `'.'` and
the first one, two or three components select the lookup (extra
components beyond three are ignored by the 3-tuple of `parts.next()`
calls; `split` never yields zero pieces, so that arm is the source's
`unreachable!`). -/
def resolveCandidate (ev : EnumeratedValues) (fields : List Field)
    (register : Register) (all_registers : List Register) (peripheral : Peripheral) :
    Except String (EnumeratedValues × Option Base) :=
  match ev.derived_from with
  | none => .ok (ev, none)
  | some base =>
    match splitDot base with
    | [base_evs] => lookup_in_register base_evs register
    | [base_field, base_evs] => lookup_in_fields base_evs base_field fields register
    | base_register :: base_field :: base_evs :: _ =>
      lookup_in_peripheral base_register base_field base_evs all_registers peripheral
    | [] => .error "unreachable"

/-- Rust `collect::<Result<Vec<_>>>()`: map, stopping at the first
error. -/
def mapExcept (f : α → Except ε β) : List α → Except ε (List β)
  | [] => .ok []
  | a :: as =>
    match f a with
    | .error e => .error e
    | .ok b =>
      match mapExcept f as with
      | .error e => .error e
      | .ok bs => .ok (b :: bs)

/-- `lookup` of `util.rs`: resolve every candidate, return the first
whose (resolved) usage equals the requested usage, else the first
candidate, else `none` when the list is empty. -/
def lookup (evs : List EnumeratedValues) (fields : List Field) (register : Register)
    (all_registers : List Register) (peripheral : Peripheral) (usage : Usage) :
    Except String (Option (EnumeratedValues × Option Base)) :=
  match mapExcept (fun ev => resolveCandidate ev fields register all_registers peripheral) evs with
  | .error e => .error e
  | .ok resolved =>
    match resolved.find? (fun x => x.1.usage == some usage) with
    | some x => .ok (some x)
    | none => .ok resolved.head?

/-! ## Register lookup and description resolution -/

/-- `lookup_register`: find a register by exact name. -/
def lookup_register (base : String) (all_registers : List Register) :
    Except String Register :=
  match all_registers.find? (fun r => r.name == base) with
  | some r => .ok r
  | none => .error ("Register " ++ base ++ " not found")

/-- `lookup_parent`: resolve a register's `derived_from` base; a
register naming itself is a self-derivation error, and a register with
no `derived_from` has no base.  `chain_err` context is modelled as a
message prefix. -/
def lookup_parent (register : Register) (all_registers : List Register) :
    Except String Register :=
  match register.derived_from with
  | some base =>
    if register.name = base then
      .error ("Register " ++ register.name ++ " derives from itself.")
    else
      (lookup_register base all_registers).mapError
        (fun e => "While getting base for register " ++ register.name ++ ": " ++ e)
  | none => .error ("Couldn't get base of register " ++ register.name)

/-- The next hop of the derivation chain as `description_of` follows it:
`lookup_parent(…).ok()`. -/
def parentOpt (all_registers : List Register) (b : Register) : Option Register :=
  (lookup_parent b all_registers).toOption

/-- `description_of` of `util.rs`, with explicit fuel standing for the
recursion depth (the Rust recursion has no cycle check beyond the direct
self-reference inside `lookup_parent`, so it can recurse without bound;
`none` marks fuel exhaustion, i.e. non-termination at that depth). -/
def description_of : Nat → Register → Option Register → List Register →
    Option (Except String String)
  | 0, _, _, _ => none
  | fuel + 1, register, base, all_registers =>
    match register.description with
    | some desc => some (.ok desc)
    | none =>
      match base with
      | some b =>
        (description_of fuel b (parentOpt all_registers b) all_registers).map
          (Except.mapError
            (fun e => "While getting description of register " ++ b.name ++ ": " ++ e))
      | none =>
        some (.error ("Register " ++ register.name ++ " has no description"))

/-- Iterated hops of the derivation chain, starting from an optional
register. -/
def chainN (all_registers : List Register) : Option Register → Nat → Option Register
  | x, 0 => x
  | x, n + 1 => (chainN all_registers x n).bind (parentOpt all_registers)

/-! ## Width-to-primitive-type mapping (`U32Ext::to_ty`) -/

/-- `u32::to_ty` of `util.rs`: map a bit width to the Rust storage type
identifier, failing outside `1..=32`. -/
def to_ty (w : Nat) : Except String String :=
  if 1 ≤ w ∧ w ≤ 8 then .ok "u8"
  else if 9 ≤ w ∧ w ≤ 16 then .ok "u16"
  else if 17 ≤ w ∧ w ≤ 32 then .ok "u32"
  else .error ("can't convert " ++ toString w ++ " bits into a Rust integer type")

/-! ## Concrete model instances used by the theorems below -/

/-- The spec's array-expansion example register info. -/
def timerInfo : RegisterInfo :=
  { name := "TIMER[%s]", address_offset := 16, description := none,
    access := none, fields := none, derived_from := none }

/-- The spec's array-expansion example array info. -/
def timerAi : ArrayInfo := { dim := 3, dim_index := none, dim_increment := 4 }

/-- An array info with an explicit `dim_index` shorter than `dim`. -/
def shortAi : ArrayInfo := { dim := 5, dim_index := some ["4", "8"], dim_increment := 4 }

/-- A register that derives from itself. -/
def regSelf : Register :=
  .single { name := "A", address_offset := 0, description := none,
            access := none, fields := none, derived_from := some "A" }

/-- A register whose only field is ReadOnly and that declares no access. -/
def regRO : Register :=
  .single { name := "R", address_offset := 0, description := none, access := none,
            fields := some [{ name := "F", access := some .readOnly,
                              enumerated_values := [] }],
            derived_from := none }

/-! ## Width mapping: C8 -/

/-- C8: the storage-type mapping returns the 8-bit type exactly on
widths 1..8, the 16-bit type exactly on 9..16, the 32-bit type exactly
on 17..32, and on every other width (0 or above 32) fails with the
unsupported-width error naming the offending width. -/
theorem to_ty_range_mapping (w : Nat) :
    (to_ty w = .ok "u8" ↔ 1 ≤ w ∧ w ≤ 8)
    ∧ (to_ty w = .ok "u16" ↔ 9 ≤ w ∧ w ≤ 16)
    ∧ (to_ty w = .ok "u32" ↔ 17 ≤ w ∧ w ≤ 32)
    ∧ (to_ty w = .error ("can't convert " ++ toString w ++
        " bits into a Rust integer type") ↔ (w = 0 ∨ 32 < w)) := by
  unfold to_ty
  split_ifs with h1 h2 h3 <;>
    refine ⟨?_, ?_, ?_, ?_⟩ <;>
      simp only [Except.ok.injEq, Except.error.injEq, reduceCtorEq,
        iff_true, iff_false, true_iff, false_iff] <;>
      first
        | omega
        | (constructor <;> intro hx <;> first | omega | (exfalso; revert hx; decide))

/-- Witness for C8: width 8 maps to the 8-bit type. -/
theorem to_ty_range_mapping_witness : to_ty 8 = .ok "u8" := by
  exact (to_ty_range_mapping 8).1.mpr (by decide)

/-! ## Self-derivation: C7 -/

/-- C7: a register whose `derived_from` names the register itself makes
`lookup_parent` fail with the self-derivation error (the model is a
total function, so the failure is produced without looping). -/
theorem lookup_parent_self_derivation (r : Register) (all_registers : List Register)
    (h : r.derived_from = some r.name) :
    lookup_parent r all_registers =
      .error ("Register " ++ r.name ++ " derives from itself.") := by
  unfold lookup_parent
  rw [h]
  simp

/-- Witness for C7 at a concrete self-deriving register. -/
theorem lookup_parent_self_derivation_witness :
    lookup_parent regSelf [] = .error "Register A derives from itself." := by
  exact lookup_parent_self_derivation regSelf [] rfl

/-! ## Array expansion: C3 and C9 -/

/-- C3: expanding `"TIMER[%s]"` with `dim = 3`, `dim_increment = 4`,
`address_offset = 0x10` and no `dim_index` yields exactly the instances
`timer0`, `timer1`, `timer2` at offsets `0x10`, `0x14`, `0x18`; and in
general the emitted offsets of an array register are
`address_offset + i * dim_increment` for the 0-based positional indices
`i`, regardless of the labels. -/
theorem expand_timer_array_positional_stride :
    expand [.array timerInfo timerAi] =
      [{ register := .array timerInfo timerAi, info := timerInfo,
         name := "timer0", offset := 16, ty := .inr "Timer" },
       { register := .array timerInfo timerAi, info := timerInfo,
         name := "timer1", offset := 20, ty := .inr "Timer" },
       { register := .array timerInfo timerAi, info := timerInfo,
         name := "timer2", offset := 24, ty := .inr "Timer" }]
    ∧ ∀ (info : RegisterInfo) (ai : ArrayInfo),
        (expandOne (.array info ai)).map ExpandedRegister.offset =
          (List.range (arrayIndices ai).length).map
            (fun i => info.address_offset + i * ai.dim_increment) := by
  constructor
  · decide
  · intro info ai
    simp only [expandOne, List.map_map]
    have h : (fun p : Nat × String => info.address_offset + p.1 * ai.dim_increment)
        = (fun i => info.address_offset + i * ai.dim_increment) ∘ Prod.fst := rfl
    calc (arrayIndices ai).enum.map
          (ExpandedRegister.offset ∘ fun p =>
            ({ register := .array info ai, info := info,
               name := to_sanitized_snake_case
                 (if strContainsSub info.name "[%s]" then strReplace info.name "[%s]" p.2
                  else strReplace info.name "%s" p.2),
               offset := info.address_offset + p.1 * ai.dim_increment,
               ty := .inr (to_sanitized_pascal_case
                 (if strContainsSub info.name "[%s]" then strReplace info.name "[%s]" ""
                  else strReplace info.name "%s" "")) } : ExpandedRegister))
        = (arrayIndices ai).enum.map
            ((fun i => info.address_offset + i * ai.dim_increment) ∘ Prod.fst) := by
          rw [← h]; rfl
      _ = ((arrayIndices ai).enum.map Prod.fst).map
            (fun i => info.address_offset + i * ai.dim_increment) := by
          rw [List.map_map]
      _ = (List.range (arrayIndices ai).length).map
            (fun i => info.address_offset + i * ai.dim_increment) := by
          rw [List.enum_map_fst]

/-- C9: with an explicit `dim_index` list, expansion emits exactly one
instance per label, and the emitted names, offsets and types do not
depend on `dim` at all. -/
theorem expand_explicit_dim_index_count (info : RegisterInfo) (ai : ArrayInfo)
    (labels : List String) (h : ai.dim_index = some labels) :
    (expandOne (.array info ai)).length = labels.length
    ∧ ∀ d : Nat,
        (expandOne (.array info
            { dim := d, dim_index := ai.dim_index, dim_increment := ai.dim_increment })).map
            (fun e => (e.name, e.offset, e.ty))
          = (expandOne (.array info ai)).map (fun e => (e.name, e.offset, e.ty)) := by
  have hidx : arrayIndices ai = labels := by simp [arrayIndices, h]
  constructor
  · simp [expandOne, hidx]
  · intro d
    have hidx2 : arrayIndices
        { dim := d, dim_index := ai.dim_index, dim_increment := ai.dim_increment }
        = labels := by simp [arrayIndices, h]
    simp [expandOne, hidx, hidx2]

/-- Witness for C9: two labels with `dim = 5` yield two instances. -/
theorem expand_explicit_dim_index_count_witness :
    (expandOne (.array timerInfo shortAi)).length = 2 := by
  exact (expand_explicit_dim_index_count timerInfo shortAi ["4", "8"] rfl).1

/-! ## Access inference: C6 -/

/-- C6: the effective access mode is the register's explicit access if
declared, else the base's explicit access if declared, else inferred
from the union of both field lists: ReadWrite for an empty union,
ReadOnly (resp. WriteOnly) when every field of the union is ReadOnly
(resp. WriteOnly), and ReadWrite for any mixture or unset field
access. -/
theorem access_of_three_tier_fallback (r : Register) (b : Option Register) :
    (∀ a, r.access = some a → access_of r b = a)
    ∧ (r.access = none → ∀ a, b.bind Register.access = some a → access_of r b = a)
    ∧ (r.access = none → b.bind Register.access = none →
        ((fieldsUnion r b = [] → access_of r b = .readWrite)
         ∧ (fieldsUnion r b ≠ [] →
             (∀ f ∈ fieldsUnion r b, f.access = some .readOnly) →
             access_of r b = .readOnly)
         ∧ (fieldsUnion r b ≠ [] →
             (∀ f ∈ fieldsUnion r b, f.access = some .writeOnly) →
             access_of r b = .writeOnly)
         ∧ ((∃ f ∈ fieldsUnion r b, f.access ≠ some .readOnly) →
            (∃ f ∈ fieldsUnion r b, f.access ≠ some .writeOnly) →
             access_of r b = .readWrite))) := by
  refine ⟨?_, ?_, ?_⟩
  · intro a ha
    simp [access_of, ha]
  · intro h0 a ha
    simp [access_of, h0, ha]
  · intro h0 hb
    simp only [access_of, h0, hb]
    refine ⟨?_, ?_, ?_, ?_⟩
    · intro hu
      simp [hu]
    · intro hne hall
      have h1 : ¬((fieldsUnion r b).length = 0) := by
        simpa [List.length_eq_zero] using hne
      have h2 : (fieldsUnion r b).all (fun f => f.access == some .readOnly) = true :=
        List.all_eq_true.mpr (fun f hf => beq_iff_eq.mpr (hall f hf))
      simp [h1, h2]
    · intro hne hall
      have h1 : ¬((fieldsUnion r b).length = 0) := by
        simpa [List.length_eq_zero] using hne
      have h2 : (fieldsUnion r b).all (fun f => f.access == some .writeOnly) = true :=
        List.all_eq_true.mpr (fun f hf => beq_iff_eq.mpr (hall f hf))
      have h3 : (fieldsUnion r b).all (fun f => f.access == some .readOnly) = false := by
        obtain ⟨f, hf⟩ := List.exists_mem_of_ne_nil _ hne
        refine List.all_eq_false.mpr ⟨f, hf, ?_⟩
        simp [beq_iff_eq, hall f hf]
      simp [h1, h2, h3]
    · rintro ⟨f1, hf1, hne1⟩ ⟨f2, hf2, hne2⟩
      have hne : fieldsUnion r b ≠ [] := by
        intro hx
        rw [hx] at hf1
        cases hf1
      have h1 : ¬((fieldsUnion r b).length = 0) := by
        simpa [List.length_eq_zero] using hne
      have h2 : (fieldsUnion r b).all (fun f => f.access == some .readOnly) = false :=
        List.all_eq_false.mpr ⟨f1, hf1, by simpa [beq_iff_eq] using hne1⟩
      have h3 : (fieldsUnion r b).all (fun f => f.access == some .writeOnly) = false :=
        List.all_eq_false.mpr ⟨f2, hf2, by simpa [beq_iff_eq] using hne2⟩
      simp [h1, h2, h3]

/-- Witness for C6: a register with no explicit access, no base, and a
single ReadOnly field infers ReadOnly. -/
theorem access_of_three_tier_fallback_witness :
    access_of regRO none = Access.readOnly := by
  exact ((access_of_three_tier_fallback regRO none).2.2 rfl rfl).2.1
    (by decide) (by decide)

/-! ## Sorting and stability of `expand`: C5 -/

theorem mem_insertByOffset {x y : ExpandedRegister} {l : List ExpandedRegister} :
    y ∈ insertByOffset x l ↔ y = x ∨ y ∈ l := by
  induction l with
  | nil => simp [insertByOffset]
  | cons z zs ih =>
    simp only [insertByOffset]
    split_ifs
    · simp [List.mem_cons]
    · simp only [List.mem_cons, ih]
      tauto

theorem pairwise_insertByOffset {x : ExpandedRegister} {l : List ExpandedRegister}
    (h : l.Pairwise (fun a b => a.offset ≤ b.offset)) :
    (insertByOffset x l).Pairwise (fun a b => a.offset ≤ b.offset) := by
  induction l with
  | nil => simp [insertByOffset]
  | cons y ys ih =>
    rw [List.pairwise_cons] at h
    obtain ⟨hy, hys⟩ := h
    simp only [insertByOffset]
    split_ifs with hxy
    · refine List.Pairwise.cons ?_ (List.Pairwise.cons hy hys)
      intro z hz
      rcases List.mem_cons.mp hz with rfl | hz2
      · exact hxy
      · exact Nat.le_trans hxy (hy _ hz2)
    · refine List.Pairwise.cons ?_ (ih hys)
      intro z hz
      rcases mem_insertByOffset.mp hz with rfl | hz2
      · exact Nat.le_of_not_le hxy
      · exact hy _ hz2

theorem pairwise_sortByOffset (l : List ExpandedRegister) :
    (sortByOffset l).Pairwise (fun a b => a.offset ≤ b.offset) := by
  induction l with
  | nil => simp [sortByOffset]
  | cons x xs ih => exact pairwise_insertByOffset ih

theorem filter_insertByOffset (x : ExpandedRegister) (l : List ExpandedRegister) (o : Nat) :
    (insertByOffset x l).filter (fun e => e.offset == o) =
      if x.offset = o then x :: l.filter (fun e => e.offset == o)
      else l.filter (fun e => e.offset == o) := by
  induction l with
  | nil =>
    by_cases ho : x.offset = o <;>
      simp [insertByOffset, List.filter_cons, beq_iff_eq, ho]
  | cons y ys ih =>
    simp only [insertByOffset]
    by_cases hxy : x.offset ≤ y.offset
    · rw [if_pos hxy]
      by_cases ho : x.offset = o <;>
        simp [List.filter_cons, beq_iff_eq, ho]
    · rw [if_neg hxy, List.filter_cons, ih]
      by_cases ho : x.offset = o
      · have hyo : ¬(y.offset = o) := by
          have := Nat.lt_of_not_le hxy
          omega
        simp [List.filter_cons, beq_iff_eq, ho, hyo]
      · by_cases hy : y.offset = o <;>
          simp [List.filter_cons, beq_iff_eq, ho, hy]

theorem filter_sortByOffset (l : List ExpandedRegister) (o : Nat) :
    (sortByOffset l).filter (fun e => e.offset == o) =
      l.filter (fun e => e.offset == o) := by
  induction l with
  | nil => rfl
  | cons x xs ih =>
    simp only [sortByOffset]
    rw [filter_insertByOffset, ih, List.filter_cons]
    by_cases ho : x.offset = o <;> simp [ho]

/-- C5: the list returned by `expand` is sorted in ascending order of
address offset, and for every offset the sub-sequence of instances at
that offset is exactly the sub-sequence of the unsorted (input-ordered)
instance list — the sort is stable with no secondary key. -/
theorem expand_sorted_and_stable (registers : List Register) :
    (expand registers).Pairwise (fun a b => a.offset ≤ b.offset)
    ∧ ∀ o : Nat,
        (expand registers).filter (fun e => e.offset == o) =
          (expandUnsorted registers).filter (fun e => e.offset == o) :=
  ⟨pairwise_sortByOffset _, fun o => filter_sortByOffset _ o⟩

/-! ## One-component reference lookup: C1 -/

/-- A register with two fields, `F1` and `F2`, each holding an
`EnumeratedValues` named `VALS`. -/
def regC1 : Register :=
  .single { name := "R", address_offset := 0, description := none, access := none,
            fields := some
              [{ name := "F1", access := none,
                 enumerated_values :=
                   [{ name := some "VALS", usage := none, derived_from := none }] },
               { name := "F2", access := none,
                 enumerated_values :=
                   [{ name := some "VALS", usage := none, derived_from := none }] }],
            derived_from := none }

/-- C1 evaluated on the failing input: with two fields `F1`, `F2` both
holding an `EnumeratedValues` named `VALS`, the one-component lookup for
`VALS` does fail as ambiguous and a lookup for an absent name does fail
as not-found, but the ambiguity message lists the `Debug` rendering of
the matching EnumeratedValues' names (`Some("VALS")`, twice) and does
not mention the colliding field names `F1`, `F2` at all — contradicting
the documented message. -/
theorem lookup_in_register_ambiguity_message_names_evs :
    lookup_in_register "VALS" regC1 =
      .error "Fields [Some(\"VALS\"), Some(\"VALS\")] have an enumeratedValues named VALS"
    ∧ strContainsSub
        "Fields [Some(\"VALS\"), Some(\"VALS\")] have an enumeratedValues named VALS"
        "F1" = false
    ∧ strContainsSub
        "Fields [Some(\"VALS\"), Some(\"VALS\")] have an enumeratedValues named VALS"
        "F2" = false
    ∧ lookup_in_register "NOPE" regC1 =
      .error "EnumeratedValues NOPE not found in register R" := by
  exact ⟨rfl, rfl, rfl, rfl⟩

/-! ## Usage-based selection: C2 -/

theorem mapExcept_ok_length {α β ε : Type} {f : α → Except ε β} {l : List α}
    {res : List β} (h : mapExcept f l = .ok res) : res.length = l.length := by
  induction l generalizing res with
  | nil =>
    simp only [mapExcept, Except.ok.injEq] at h
    rw [← h]
    rfl
  | cons a as ih =>
    simp only [mapExcept] at h
    cases hfa : f a with
    | error e => rw [hfa] at h; cases h
    | ok b =>
      rw [hfa] at h
      cases hrest : mapExcept f as with
      | error e => rw [hrest] at h; cases h
      | ok bs =>
        rw [hrest] at h
        simp only [Except.ok.injEq] at h
        rw [← h]
        simp [ih hrest]

theorem find?_eq_of_first {α : Type} (p : α → Bool) (l : List α) (i : Nat)
    (hi : i < l.length) (hp : p (l.get ⟨i, hi⟩) = true)
    (hbefore : ∀ x ∈ l.take i, p x = false) :
    l.find? p = some (l.get ⟨i, hi⟩) := by
  induction l generalizing i with
  | nil => cases hi
  | cons a as ih =>
    cases i with
    | zero =>
      exact List.find?_cons_of_pos _ hp
    | succ j =>
      have ha : p a = false := hbefore a (by simp [List.take_succ_cons])
      rw [List.find?_cons_of_neg _ (by simp [ha])]
      exact ih j (Nat.lt_of_succ_lt_succ hi) hp
        (fun x hx => hbefore x (by simp [List.take_succ_cons, hx]))

/-- C2: when every candidate's `derived_from` reference resolves, the
lookup returns the first resolved candidate whose usage equals the
requested usage; when none matches by usage, the first candidate in
declaration order; and the `none` (no EnumeratedValues found) outcome
arises exactly when the field's own candidate list is empty. -/
theorem lookup_usage_selection (evs : List EnumeratedValues) (fields : List Field)
    (register : Register) (all_registers : List Register) (peripheral : Peripheral)
    (usage : Usage) (resolved : List (EnumeratedValues × Option Base))
    (h : mapExcept (fun ev => resolveCandidate ev fields register all_registers peripheral)
        evs = .ok resolved) :
    (∀ i (hi : i < resolved.length),
        (resolved.get ⟨i, hi⟩).1.usage = some usage →
        (∀ x ∈ resolved.take i, x.1.usage ≠ some usage) →
        lookup evs fields register all_registers peripheral usage =
          .ok (some (resolved.get ⟨i, hi⟩)))
    ∧ ((∀ x ∈ resolved, x.1.usage ≠ some usage) →
        lookup evs fields register all_registers peripheral usage = .ok resolved.head?)
    ∧ (lookup evs fields register all_registers peripheral usage = .ok none ↔ evs = []) := by
  have hlen := mapExcept_ok_length h
  have heq : lookup evs fields register all_registers peripheral usage =
      (match resolved.find? (fun x => x.1.usage == some usage) with
       | some x => Except.ok (some x)
       | none => Except.ok resolved.head?) := by
    unfold lookup
    rw [h]
  refine ⟨?_, ?_, ?_⟩
  · intro i hi hp hbefore
    rw [heq, find?_eq_of_first (fun x => x.1.usage == some usage) resolved i hi
      (by simpa using hp) (fun x hx => by simpa using hbefore x hx)]
  · intro hall
    rw [heq, List.find?_eq_none.mpr (fun x hx => by simpa using hall x hx)]
  · rw [heq]
    constructor
    · intro hres
      cases hfind : resolved.find? (fun x => x.1.usage == some usage) with
      | some x =>
        rw [hfind] at hres
        simp at hres
      | none =>
        rw [hfind] at hres
        simp only [Except.ok.injEq] at hres
        have hempty : resolved = [] := by
          cases resolved with
          | nil => rfl
          | cons y ys => cases hres
        rw [hempty] at hlen
        exact List.length_eq_zero.mp hlen.symm
    · intro he
      have hres : resolved = [] := by
        rw [he] at h
        simp only [mapExcept, Except.ok.injEq] at h
        rw [← h]
      rw [hres]
      rfl

/-- A candidate with no `derived_from` and Read usage. -/
def ev0 : EnumeratedValues :=
  { name := some "E", usage := some .read, derived_from := none }

/-- A minimal register for the C2 witness. -/
def reg0 : Register :=
  .single { name := "R0", address_offset := 0, description := none,
            access := none, fields := none, derived_from := none }

/-- Witness for C2: a single self-resolving candidate with matching
usage is returned. -/
theorem lookup_usage_selection_witness :
    lookup [ev0] [] reg0 [] { name := "P" } .read = .ok (some (ev0, none)) := by
  exact (lookup_usage_selection [ev0] [] reg0 [] { name := "P" } .read
    [(ev0, none)] rfl).1 0 (by decide) rfl (by simp)

/-! ## Keyword escaping: C4 -/

theorem keywords_shape :
    ∀ kw ∈ keywords, kw.data ≠ [] ∧ ∀ c ∈ kw.data, c.isLower = true := by
  decide

theorem char_toLower_of_isDigit {c : Char} (h : c.isDigit = true) : c.toLower = c := by
  simp only [Char.isDigit, Bool.and_eq_true, decide_eq_true_eq] at h
  have h3 : c.toNat ≤ 57 := UInt32.toNat_le_of_le (by decide) h.2
  show (if c.toNat ≥ 65 ∧ c.toNat ≤ 90 then Char.ofNat (c.toNat + 32) else c) = c
  rw [if_neg]
  intro hx
  omega

theorem isDigit_isLower_false {c : Char} (hd : c.isDigit = true)
    (hl : c.isLower = true) : False := by
  simp only [Char.isDigit, Char.isLower, Bool.and_eq_true, decide_eq_true_eq] at hd hl
  have h1 : c.toNat ≤ 57 := UInt32.toNat_le_of_le (by decide) hd.2
  have h2 : 97 ≤ c.toNat := UInt32.le_toNat_of_le (by decide) hl.1
  omega

/-- C4: on an input case-insensitively equal to a reserved word of the
table, the snake-case sanitizer returns that reserved word followed by a
single trailing underscore, the keyword branch firing before ordinary
snake-case conversion. -/
theorem snake_case_keyword_escape (s kw : String) (hkw : kw ∈ keywords)
    (h : lowerStr s = kw) : to_sanitized_snake_case s = kw ++ "_" := by
  obtain ⟨hne, hlow⟩ := keywords_shape kw hkw
  have hmap : s.data.map Char.toLower = kw.data := congrArg String.data h
  have hbl : ∀ c ∈ s.data, (!BLACKLIST_CHARS.contains c) = true := by
    intro c hc
    have hlc : c.toLower ∈ kw.data := hmap ▸ List.mem_map_of_mem _ hc
    have hl := hlow _ hlc
    simp only [BLACKLIST_CHARS, List.contains_cons, List.contains_nil,
      Bool.or_false, Bool.not_eq_true', Bool.or_eq_false_iff, beq_eq_false_iff_ne]
    constructor
    · intro hcp
      rw [hcp] at hl
      exact absurd hl (by decide)
    · intro hcp
      rw [hcp] at hl
      exact absurd hl (by decide)
  have hrb : removeBlacklist s = s := by
    unfold removeBlacklist
    rw [List.filter_eq_self.mpr hbl]
  cases hs : s.data with
  | nil =>
    rw [hs] at hmap
    exact absurd hmap.symm hne
  | cons c0 rest =>
    have hhead : c0.toLower ∈ kw.data := by
      rw [← hmap, hs]
      exact List.mem_map_of_mem _ (by simp)
    have hnd : c0.isDigit = false := by
      cases hdig : c0.isDigit with
      | false => rfl
      | true =>
        have := char_toLower_of_isDigit hdig
        rw [this] at hhead
        exact absurd (isDigit_isLower_false hdig (hlow _ hhead)) (fun hx => hx)
    unfold to_sanitized_snake_case
    rw [hrb]
    simp only [hs, List.head?_cons, Option.getD_some, hnd, Bool.false_eq_true,
      if_false]
    rw [h, if_pos hkw]

/-- Witness for C4: the input `MOD` is escaped to `mod_`. -/
theorem snake_case_keyword_escape_witness :
    to_sanitized_snake_case "MOD" = "mod_" := by
  exact snake_case_keyword_escape "MOD" "mod" (by decide) (by decide)

/-! ## Termination of description resolution: C10 -/

theorem chainN_shift (all : List Register) (b : Register) (n : Nat) :
    chainN all (some b) (n + 1) = chainN all (parentOpt all b) n := by
  induction n with
  | zero => rfl
  | succ m ih =>
    show (chainN all (some b) (m + 1)).bind (parentOpt all) =
      (chainN all (parentOpt all b) m).bind (parentOpt all)
    rw [ih]

theorem description_of_fuel_sufficient :
    ∀ (fuel N : Nat) (r : Register) (base : Option Register) (all : List Register),
      chainN all base N = none → N < fuel →
      (description_of fuel r base all).isSome = true := by
  intro fuel
  induction fuel with
  | zero =>
    intro N r base all hc hN
    exact absurd hN (Nat.not_lt_zero N)
  | succ f ih =>
    intro N r base all hc hN
    cases hd : r.description with
    | some d => simp [description_of, hd]
    | none =>
      cases base with
      | none => simp [description_of, hd]
      | some b =>
        cases N with
        | zero => simp [chainN] at hc
        | succ m =>
          rw [chainN_shift] at hc
          have hrec := ih m b (parentOpt all b) all hc (Nat.lt_of_succ_lt_succ hN)
          obtain ⟨v, hv⟩ := Option.isSome_iff_exists.mp hrec
          simp [description_of, hd, hv]

/-- Two registers deriving from each other, neither with a description:
the smallest derivation cycle of length two. -/
def cycA : Register :=
  .single { name := "A", address_offset := 0, description := none,
            access := none, fields := none, derived_from := some "B" }

/-- The second half of the two-register derivation cycle. -/
def cycB : Register :=
  .single { name := "B", address_offset := 4, description := none,
            access := none, fields := none, derived_from := some "A" }

theorem cyc_description_diverges (fuel : Nat) :
    description_of fuel cycA (some cycB) [cycA, cycB] = none
    ∧ description_of fuel cycB (some cycA) [cycA, cycB] = none := by
  induction fuel with
  | zero => exact ⟨rfl, rfl⟩
  | succ f ih =>
    constructor
    · have hstep : description_of (f + 1) cycA (some cycB) [cycA, cycB] =
          (description_of f cycB (some cycA) [cycA, cycB]).map
            (Except.mapError (fun e =>
              "While getting description of register " ++ cycB.name ++ ": " ++ e)) := rfl
      rw [hstep, ih.2]
      rfl
    · have hstep : description_of (f + 1) cycB (some cycA) [cycA, cycB] =
          (description_of f cycA (some cycB) [cycA, cycB]).map
            (Except.mapError (fun e =>
              "While getting description of register " ++ cycA.name ++ ": " ++ e)) := rfl
      rw [hstep, ih.1]
      rfl

/-- C10: description resolution terminates (produces a result, possibly
an error, independent of extra fuel) whenever the hop-by-hop derivation
chain from the starting base is finite — it reaches `none` after `N`
hops — with any recursion budget above `N`; and no cycle of length two
or more is detected: on the concrete two-register cycle the recursion
never produces a result at any depth. -/
theorem description_resolution_terminates_on_finite_chains :
    (∀ (all : List Register) (N fuel : Nat) (r : Register) (base : Option Register),
        chainN all base N = none → N < fuel →
        (description_of fuel r base all).isSome = true)
    ∧ (∀ fuel : Nat, description_of fuel cycA (some cycB) [cycA, cycB] = none) :=
  ⟨fun all N fuel r base hc hN => description_of_fuel_sufficient fuel N r base all hc hN,
   fun fuel => (cyc_description_diverges fuel).1⟩

/-- A base register carrying a description, for the C10 witness. -/
def wB : Register :=
  .single { name := "B", address_offset := 0, description := some "desc",
            access := none, fields := none, derived_from := none }

/-- A register deriving from `wB`, for the C10 witness. -/
def wA : Register :=
  .single { name := "A", address_offset := 4, description := none,
            access := none, fields := none, derived_from := some "B" }

/-- Witness for C10: a one-hop acyclic chain resolves with fuel 2. -/
theorem description_resolution_terminates_witness :
    (description_of 2 wA (some wB) [wB]).isSome = true := by
  exact description_resolution_terminates_on_finite_chains.1 [wB] 1 2 wA (some wB)
    (by decide) (by decide)

end Svd
